import Mathlib

/-!
Verification of the de-regex deserializer (src/lib.rs, src/de.rs, src/error.rs).

The development shallowly embeds the two-stage pipeline:
  * the top-level `Deserializer` (regex match + capture projection, de.rs lines 21-65),
  * the per-field `Value` deserializer (de.rs lines 67-225),
  * the error taxonomy (error.rs),
  * the two entry points `from_str` / `from_str_regex` (lib.rs lines 123-155).

The external collaborators (the regex engine and the serde framework's derived
visitors) are modelled as explicit capabilities: a `Regex` is a pair of its
named-group list and a matching function, and the generic record builder driven
by serde-derive is embedded as `deserializeStruct` following serde's documented
derived-struct `visit_map` behaviour (field slots, duplicate check, ignored
unknown keys, missing-field handling where only optional fields default to
"no value").
-/

namespace DeRegex

/-- The error enum of src/error.rs. `BadRegex` carries the regex compiler
diagnostic (modelled as a string), `NoMatch` means the input did not match the
pattern, `BadValue` carries the capture-group name and the offending captured
text, and `Custom` is the opaque message kind produced through
`serde::de::Error::custom`. -/
inductive Error where
  | BadRegex (err : String)
  | NoMatch
  | BadValue (name : String) (value : String)
  | Custom (msg : String)
deriving Repr, DecidableEq

/-- A compiled pattern, modelling the external regex engine's interface as the
source uses it: `captureNames` mirrors `Regex::capture_names` (one entry per
group in declaration order, `none` for an unnamed group), and `captures input`
returns `none` when the pattern does not match and otherwise the per-name
lookup `caps.name` (`some text` exactly for the named groups that participated
in the match). -/
structure Regex where
  captureNames : List (Option String)
  captures : String → Option (String → Option String)

/-- One field's raw textual evidence: the `Value` struct of de.rs lines 67-70,
a (group name, captured text) pair. -/
structure Value where
  name : String
  value : String
deriving Repr, DecidableEq

/-- `Value::get_parse_error` (de.rs lines 80-85). -/
def Value.get_parse_error (v : Value) : Error :=
  Error.BadValue v.name v.value

/-- Rust's decimal-digit test on a character (`char::to_digit(10)` succeeds),
i.e. the code point lies between '0' (48) and '9' (57). -/
def isDecDigit (c : Char) : Bool :=
  decide (48 ≤ c.toNat ∧ c.toNat ≤ 57)

/-- Numeric value of a decimal digit character. -/
def digitVal (c : Char) : Int :=
  (c.toNat : Int) - 48

/-- The accumulation loop of Rust's `from_str_radix` for a non-negative
result: each step multiplies by 10, adds the digit, and fails on a non-digit
or when the accumulator would exceed `maxV` (`checked_mul`/`checked_add`). -/
def goPos (maxV : Int) : List Char → Int → Option Int
  | [], acc => some acc
  | c :: rest, acc =>
    if isDecDigit c then
      if acc * 10 + digitVal c ≤ maxV then goPos maxV rest (acc * 10 + digitVal c)
      else none
    else none

/-- The accumulation loop of Rust's `from_str_radix` for a negative result:
each step multiplies by 10, subtracts the digit, and fails on a non-digit or
when the accumulator would fall below `minV` (`checked_mul`/`checked_sub`). -/
def goNeg (minV : Int) : List Char → Int → Option Int
  | [], acc => some acc
  | c :: rest, acc =>
    if isDecDigit c then
      if minV ≤ acc * 10 - digitVal c then goNeg minV rest (acc * 10 - digitVal c)
      else none
    else none

/-- Rust's `FromStr` for a bounded integer type with bounds `[minV, maxV]`
(`from_str_radix` at radix 10): an empty string fails; a leading '+' is
stripped for every integer type; a leading '-' is stripped only for signed
types (for unsigned types it falls through to the digit loop and fails there);
a sign with no digits after it fails; then the digit loop runs with overflow
checks against the type's bounds. -/
def rustParseInt (signed : Bool) (minV maxV : Int) (s : String) : Option Int :=
  match s.toList with
  | [] => none
  | c :: rest =>
    if c = '+' then
      if rest.isEmpty then none else goPos maxV rest 0
    else if c = '-' then
      if signed then
        if rest.isEmpty then none else goNeg minV rest 0
      else goPos maxV (c :: rest) 0
    else goPos maxV (c :: rest) 0

/-- `Value::parse::<T>` for an integer target type (de.rs lines 72-78):
delegate to the standard `FromStr` conversion and map a failure to
`Error::BadValue` carrying the group name and the captured text. -/
def Value.parseInt (v : Value) (signed : Bool) (minV maxV : Int) : Except Error Int :=
  match rustParseInt signed minV maxV v.value with
  | some n => Except.ok n
  | none => Except.error v.get_parse_error

/-- Rust's `u8::to_ascii_lowercase` lifted to characters: map 'A'..'Z'
(code points 65..90) to 'a'..'z', leave everything else unchanged. -/
def asciiLower (c : Char) : Char :=
  if 65 ≤ c.toNat ∧ c.toNat ≤ 90 then Char.ofNat (c.toNat + 32) else c

/-- Rust's `str::eq_ignore_ascii_case`: equality after ASCII case folding of
both sides. -/
def eqIgnoreAsciiCase (a b : String) : Bool :=
  a.toList.map asciiLower == b.toList.map asciiLower

/-- The target shapes a derived `Deserialize` implementation can request from
the `Value` deserializer, as far as this development needs them: booleans, the
eight bounded integer types, strings, `Option<T>`, one-field newtype structs,
enums with a declared variant list (variant name after serde renames, paired
with whether the variant is a unit variant), and the structured shapes the
source does not support (seq, map, bytes, tuples of arity > 1, nested structs,
...), recorded with serde's name for the expected type. -/
inductive Shape where
  | bool
  | u8 | u16 | u32 | u64
  | i8 | i16 | i32 | i64
  | str
  | option (inner : Shape)
  | newtype (inner : Shape)
  | enum (variants : List (String × Bool))
  | unsupported (expected : String)
deriving Repr, DecidableEq

/-- Native values produced by a successful conversion. -/
inductive Native where
  | bool (b : Bool)
  | int (n : Int)
  | str (s : String)
  | none
  | some (v : Native)
  | newtype (v : Native)
  | variant (name : String)
deriving Repr, DecidableEq

/-- The signedness and bounds of the eight integer shapes. -/
def intShapeInfo : Shape → Option (Bool × Int × Int)
  | Shape.u8 => some (false, 0, 255)
  | Shape.u16 => some (false, 0, 65535)
  | Shape.u32 => some (false, 0, 4294967295)
  | Shape.u64 => some (false, 0, 18446744073709551615)
  | Shape.i8 => some (true, -128, 127)
  | Shape.i16 => some (true, -32768, 32767)
  | Shape.i32 => some (true, -2147483648, 2147483647)
  | Shape.i64 => some (true, -9223372036854775808, 9223372036854775807)
  | _ => Option.none

/-- Variant lookup of serde's derived enum identifier visitor: the first
declared variant whose (renamed) name equals the captured text, by
case-sensitive whole-string equality. -/
def findVariant (variants : List (String × Bool)) (s : String) : Option (String × Bool) :=
  variants.find? (fun p => p.1 == s)

/-- The per-field `Value` deserializer (de.rs lines 96-225) composed with the
derived visitors of the serde framework:

* `bool` — de.rs lines 106-117: `eq_ignore_ascii_case` against "true" and
  "false", otherwise `get_parse_error`.
* integers — de.rs lines 119-173: `visitor.visit_*(self.parse()?)`, i.e.
  Rust's `FromStr` with the width's bounds, failures becoming `BadValue`.
* `str` — forwarded to `deserialize_any` (de.rs lines 99-104), which feeds the
  captured text to the visitor verbatim; cannot fail.
* `option` — de.rs lines 189-198: empty captured text visits `none`, anything
  else recurses on the inner shape and wraps the result in `some`.
* `newtype` — de.rs lines 200-205: `visit_newtype_struct(self)`, i.e. the
  inner shape converted from the same text and wrapped.
* `enum` — de.rs lines 207-217: `visit_enum` over the string deserializer of
  the captured text; serde's derived enum visitor selects the unit variant
  whose name equals the text exactly, fails with an unknown-variant `custom`
  error when no variant name matches, and fails with an invalid-type `custom`
  error when the matched variant carries data (`UnitOnly` variant access).
* structured shapes — forwarded to `deserialize_any` (de.rs lines 219-224),
  which visits the text as a string; a derived visitor for a structured shape
  rejects a string with an invalid-type `custom` error. -/
def Value.deserialize (v : Value) : Shape → Except Error Native
  | Shape.bool =>
    if eqIgnoreAsciiCase v.value "true" then Except.ok (Native.bool true)
    else if eqIgnoreAsciiCase v.value "false" then Except.ok (Native.bool false)
    else Except.error v.get_parse_error
  | Shape.u8 => (v.parseInt false 0 255).map Native.int
  | Shape.u16 => (v.parseInt false 0 65535).map Native.int
  | Shape.u32 => (v.parseInt false 0 4294967295).map Native.int
  | Shape.u64 => (v.parseInt false 0 18446744073709551615).map Native.int
  | Shape.i8 => (v.parseInt true (-128) 127).map Native.int
  | Shape.i16 => (v.parseInt true (-32768) 32767).map Native.int
  | Shape.i32 => (v.parseInt true (-2147483648) 2147483647).map Native.int
  | Shape.i64 =>
    (v.parseInt true (-9223372036854775808) 9223372036854775807).map Native.int
  | Shape.str => Except.ok (Native.str v.value)
  | Shape.option inner =>
    if v.value = "" then Except.ok Native.none
    else (v.deserialize inner).map Native.some
  | Shape.newtype inner => (v.deserialize inner).map Native.newtype
  | Shape.enum variants =>
    match findVariant variants v.value with
    | Option.some (name, true) => Except.ok (Native.variant name)
    | Option.some (name, _) =>
      Except.error (Error.Custom
        ("invalid type: newtype variant, expected unit variant " ++ name))
    | Option.none =>
      Except.error (Error.Custom ("unknown variant " ++ v.value))
  | Shape.unsupported expected =>
    Except.error (Error.Custom
      ("invalid type: string " ++ v.value ++ ", expected " ++ expected))

/-- The capture projection of `Deserializer::deserialize_map` (de.rs lines
37-49): walk `capture_names`, keep only named groups (`filter_map`/`and_then`),
and for each named group that participated in the match (`caps.name` is
`some`) emit the pair (name, `Value` of name and captured text). -/
def buildItems (names : List (Option String)) (capsName : String → Option String) :
    List (String × Value) :=
  names.filterMap (fun n =>
    n.bind (fun name => (capsName name).map (fun t => (name, Value.mk name t))))

/-- One field of the target schema: its name and requested shape. -/
structure Field where
  name : String
  shape : Shape
deriving Repr, DecidableEq

/-- Whether a shape is the optional shape. -/
def Shape.isOption : Shape → Bool
  | Shape.option _ => true
  | _ => false

/-- The missing-field pass of serde-derive's `visit_map`: after the entries
are consumed, each declared field in declaration order takes its converted
value from the filled slots (`acc`); a field with no slot resolves to
`Option::None` when its shape is optional and otherwise fails with serde's
missing-field `custom` error. -/
def fillMissing (fields : List Field) (acc : List (String × Native)) :
    Except Error (List (String × Native)) :=
  match fields with
  | [] => Except.ok []
  | f :: fs =>
    match acc.find? (fun p => p.1 = f.name) with
    | Option.some p => (fillMissing fs acc).map (fun r => (f.name, p.2) :: r)
    | Option.none =>
      if f.shape.isOption then
        (fillMissing fs acc).map (fun r => (f.name, Native.none) :: r)
      else Except.error (Error.Custom ("missing field " ++ f.name))

/-- The entry loop of serde-derive's `visit_map` over the `MapDeserializer`
of the capture items: each (key, value) entry whose key names a declared field
is converted against that field's shape (a failure aborts the whole
conversion, a duplicate key is serde's duplicate-field error); an entry whose
key names no field is consumed and ignored (`IgnoredAny` over a string cannot
fail). -/
def convertItems (fields : List Field) :
    List (String × Value) → List (String × Native) → Except Error (List (String × Native))
  | [], acc => fillMissing fields acc
  | (k, w) :: rest, acc =>
    match fields.find? (fun f => f.name = k) with
    | Option.none => convertItems fields rest acc
    | Option.some f =>
      if acc.any (fun p => p.1 = k) then
        Except.error (Error.Custom ("duplicate field " ++ k))
      else
        match w.deserialize f.shape with
        | Except.ok n => convertItems fields rest (acc ++ [(k, n)])
        | Except.error e => Except.error e

/-- The full record builder for a struct target: consume the capture items,
then resolve missing fields. -/
def deserializeStruct (fields : List Field) (items : List (String × Value)) :
    Except Error (List (String × Native)) :=
  convertItems fields items []

/-- The top-level deserializer (de.rs lines 10-18): the borrowed input string
and the compiled pattern. -/
structure Deserializer where
  input : String
  regex : Regex

/-- What the top-level visitor supplied by the target type does with a map:
a derived struct (or map) target builds the record from the entries; any
other target's visitor (`bool`, integers, `seq`, ...) rejects a map with an
invalid-type `custom` error naming the type it expected. -/
inductive Target where
  | record (fields : List Field)
  | scalar (expected : String)
deriving Repr

/-- `Deserializer::deserialize_map` (de.rs lines 31-54): run the regex against
the input — no match is `Error::NoMatch` — then build the capture items and
hand them to the visitor via `MapDeserializer`. -/
def Deserializer.deserialize_map (d : Deserializer) (t : Target) :
    Except Error (List (String × Native)) :=
  match d.regex.captures d.input with
  | Option.none => Except.error Error.NoMatch
  | Option.some caps =>
    match t with
    | Target.record fields =>
      deserializeStruct fields (buildItems d.regex.captureNames caps)
    | Target.scalar expected =>
      Except.error (Error.Custom ("invalid type: map, expected " ++ expected))

/-- `Deserializer::deserialize_any` (de.rs lines 24-29) delegates to
`deserialize_map`. -/
def Deserializer.deserialize_any (d : Deserializer) (t : Target) :
    Except Error (List (String × Native)) :=
  d.deserialize_map t

/-- The deserialization methods a target type can invoke on the top-level
deserializer (the serde `Deserializer` trait surface implemented in de.rs
lines 21-65). -/
inductive TopRequest where
  | any | bool
  | u8 | u16 | u32 | u64 | i8 | i16 | i32 | i64 | f32 | f64
  | char | str | string | identifier
  | unit | seq | bytes | byteBuf | unitStruct | tupleStruct
  | tuple | ignoredAny | option | newtypeStruct | enum | struct | map
deriving Repr, DecidableEq

/-- The method table of the top-level deserializer: `deserialize_map` is
implemented directly and every other method is generated by
`forward_to_deserialize_any!` (de.rs lines 56-64), so it calls
`deserialize_any`, which itself calls `deserialize_map`. -/
def Deserializer.dispatch (d : Deserializer) (req : TopRequest) (t : Target) :
    Except Error (List (String × Native)) :=
  match req with
  | TopRequest.map => d.deserialize_map t
  | _ => d.deserialize_any t

/-- `from_str_regex` (lib.rs lines 152-155): build the deserializer from the
input and the compiled pattern and run the target type's deserialization
(the request `req` and visitor behaviour `t` are determined by the target
type `T`). -/
def from_str_regex (input : String) (r : Regex) (req : TopRequest) (t : Target) :
    Except Error (List (String × Native)) :=
  Deserializer.dispatch (Deserializer.mk input r) req t

/-- `from_str` (lib.rs lines 123-126): compile the pattern source with the
external regex engine (`compile` models `Regex::new`), mapping a compiler
failure to `Error::BadRegex`, then delegate to `from_str_regex`. -/
def from_str (compile : String → Except String Regex) (input pattern : String)
    (req : TopRequest) (t : Target) : Except Error (List (String × Native)) :=
  match compile pattern with
  | Except.error e => Except.error (Error.BadRegex e)
  | Except.ok r => from_str_regex input r req t

/-! ## Helper lemmas and concrete instances -/

/-- Every method of the top-level deserializer ends in `deserialize_map`:
`deserialize_map` is implemented directly, and every other method forwards to
`deserialize_any`, which calls `deserialize_map`. -/
theorem Deserializer.dispatch_eq_map (d : Deserializer) (req : TopRequest) (t : Target) :
    d.dispatch req t = d.deserialize_map t := by
  cases req <;> rfl

/-- A concrete compiled pattern that matches no input. -/
def neverRegex : Regex :=
  { captureNames := [], captures := fun _ => Option.none }

/-- A concrete compiled pattern that matches every input with no groups. -/
def bareRegex : Regex :=
  { captureNames := [], captures := fun _ => Option.some (fun _ => Option.none) }

/-! ## Claim theorems -/

/-- Claim C1: for every compiled pattern and every input it does not match,
conversion through either entry point (after successful compilation) fails
with `Error.NoMatch` — never another error kind and never a partial record —
for every requested top-level shape and target. -/
theorem noMatch_is_only_error (r : Regex) (input : String) (req : TopRequest)
    (t : Target) (h : r.captures input = Option.none) :
    from_str_regex input r req t = Except.error Error.NoMatch
    ∧ ∀ (compile : String → Except String Regex) (pattern : String),
        compile pattern = Except.ok r →
        from_str compile input pattern req t = Except.error Error.NoMatch := by
  have hm : from_str_regex input r req t = Except.error Error.NoMatch := by
    unfold from_str_regex
    rw [Deserializer.dispatch_eq_map]
    simp [Deserializer.deserialize_map, h]
  refine ⟨hm, ?_⟩
  intro compile pattern hc
  unfold from_str
  rw [hc]
  exact hm

theorem noMatch_is_only_error_witness :
    from_str_regex "abc" neverRegex TopRequest.bool (Target.scalar "a boolean") =
      Except.error Error.NoMatch
    ∧ from_str (fun _ => Except.ok neverRegex) "abc" "pat" TopRequest.bool
        (Target.scalar "a boolean") = Except.error Error.NoMatch := by
  have h := noMatch_is_only_error neverRegex "abc" TopRequest.bool
    (Target.scalar "a boolean") rfl
  exact ⟨h.1, h.2 (fun _ => Except.ok neverRegex) "pat" rfl⟩

/-- Claim C8: if pattern compilation fails, `from_str` fails with
`Error.BadRegex` carrying the compiler diagnostic, without the result
depending on the input at all; if compilation succeeds with pattern `r`,
`from_str` returns exactly what `from_str_regex` returns on `r`. -/
theorem from_str_refines_from_str_regex (compile : String → Except String Regex)
    (input pattern : String) (req : TopRequest) (t : Target) :
    (∀ e, compile pattern = Except.error e →
      from_str compile input pattern req t = Except.error (Error.BadRegex e))
    ∧ ∀ r, compile pattern = Except.ok r →
      from_str compile input pattern req t = from_str_regex input r req t := by
  constructor
  · intro e he
    unfold from_str
    rw [he]
  · intro r hr
    unfold from_str
    rw [hr]

theorem from_str_refines_from_str_regex_witness :
    from_str (fun _ => Except.error "unclosed group") "in" "(" TopRequest.map
      (Target.record []) = Except.error (Error.BadRegex "unclosed group")
    ∧ from_str (fun _ => Except.ok bareRegex) "in" "p" TopRequest.map
        (Target.record []) =
      from_str_regex "in" bareRegex TopRequest.map (Target.record []) :=
  ⟨(from_str_refines_from_str_regex (fun _ => Except.error "unclosed group")
      "in" "(" TopRequest.map (Target.record [])).1 "unclosed group" rfl,
   (from_str_refines_from_str_regex (fun _ => Except.ok bareRegex)
      "in" "p" TopRequest.map (Target.record [])).2 bareRegex rfl⟩

/-- Claim C9: a field whose target shape is an unsupported structured shape
always fails with the opaque-message (`Error.Custom`) kind — never silent
success — because the captured text is fed to the structured visitor as a
plain string and rejected. -/
theorem unsupported_shape_errors (v : Value) (expected : String) :
    Value.deserialize v (Shape.unsupported expected) =
      Except.error (Error.Custom
        ("invalid type: string " ++ v.value ++ ", expected " ++ expected))
    ∧ ∀ n, Value.deserialize v (Shape.unsupported expected) ≠ Except.ok n := by
  refine ⟨rfl, ?_⟩
  intro n h
  simp [Value.deserialize] at h

theorem unsupported_shape_errors_witness :
    Value.deserialize (Value.mk "f" "txt") (Shape.unsupported "a sequence") =
      Except.error (Error.Custom
        ("invalid type: string " ++ "txt" ++ ", expected " ++ "a sequence")) :=
  (unsupported_shape_errors (Value.mk "f" "txt") "a sequence").1

/-- Claim C10: every top-level deserialization request is routed to the single
map path; hence on non-matching input the result is `Error.NoMatch` for every
requested shape, and on matching input a non-map/non-struct target fails only
afterwards, via the generic invalid-type error. -/
theorem toplevel_requests_route_to_map (input : String) (r : Regex)
    (req : TopRequest) (t : Target) :
    Deserializer.dispatch (Deserializer.mk input r) req t =
      Deserializer.deserialize_map (Deserializer.mk input r) t
    ∧ (r.captures input = Option.none →
        Deserializer.dispatch (Deserializer.mk input r) req t =
          Except.error Error.NoMatch)
    ∧ ∀ caps expected, r.captures input = Option.some caps →
        Deserializer.dispatch (Deserializer.mk input r) req (Target.scalar expected) =
          Except.error (Error.Custom ("invalid type: map, expected " ++ expected)) := by
  refine ⟨Deserializer.dispatch_eq_map _ req t, ?_, ?_⟩
  · intro h
    rw [Deserializer.dispatch_eq_map]
    simp [Deserializer.deserialize_map, h]
  · intro caps expected h
    rw [Deserializer.dispatch_eq_map]
    simp [Deserializer.deserialize_map, h]

theorem toplevel_requests_route_to_map_witness :
    Deserializer.dispatch (Deserializer.mk "x" neverRegex) TopRequest.seq
      (Target.scalar "a sequence") = Except.error Error.NoMatch
    ∧ Deserializer.dispatch (Deserializer.mk "x" bareRegex) TopRequest.seq
        (Target.scalar "a sequence") =
      Except.error (Error.Custom ("invalid type: map, expected " ++ "a sequence")) :=
  ⟨(toplevel_requests_route_to_map "x" neverRegex TopRequest.seq
      (Target.scalar "a sequence")).2.1 rfl,
   (toplevel_requests_route_to_map "x" bareRegex TopRequest.seq
      (Target.scalar "a sequence")).2.2 (fun _ => Option.none) "a sequence" rfl⟩

/-- Claim C2: for an optional-shaped field, empty captured text converts to
"no value" regardless of the inner shape, without the inner conversion being
consulted; non-empty captured text is converted against the inner shape, a
success being wrapped in `some` and a failure propagated unchanged. -/
theorem option_field_conversion (v : Value) (inner : Shape) :
    (v.value = "" → Value.deserialize v (Shape.option inner) = Except.ok Native.none)
    ∧ (v.value ≠ "" →
        Value.deserialize v (Shape.option inner) =
          (Value.deserialize v inner).map Native.some)
    ∧ (∀ n, v.value ≠ "" → Value.deserialize v inner = Except.ok n →
        Value.deserialize v (Shape.option inner) = Except.ok (Native.some n))
    ∧ (∀ e, v.value ≠ "" → Value.deserialize v inner = Except.error e →
        Value.deserialize v (Shape.option inner) = Except.error e) := by
  refine ⟨?_, ?_, ?_, ?_⟩
  · intro h
    simp [Value.deserialize, h]
  · intro h
    simp [Value.deserialize, h]
  · intro n h h2
    simp [Value.deserialize, h, h2, Except.map]
  · intro e h h2
    simp [Value.deserialize, h, h2, Except.map]

theorem option_field_conversion_witness :
    Value.deserialize (Value.mk "foo" "") (Shape.option Shape.u8) = Except.ok Native.none
    ∧ Value.deserialize (Value.mk "foo" "5") (Shape.option Shape.u8) =
        Except.ok (Native.some (Native.int 5))
    ∧ Value.deserialize (Value.mk "foo" "x") (Shape.option Shape.u8) =
        Except.error (Error.BadValue "foo" "x") := by
  refine ⟨(option_field_conversion (Value.mk "foo" "") Shape.u8).1 rfl, ?_, ?_⟩
  · exact (option_field_conversion (Value.mk "foo" "5") Shape.u8).2.2.1
      (Native.int 5) (by decide) (by rfl)
  · exact (option_field_conversion (Value.mk "foo" "x") Shape.u8).2.2.2
      (Error.BadValue "foo" "x") (by decide) (by rfl)

/-- `deserialize_bool` written with propositional conditions: the captured
text is compared to "true" and "false" after ASCII case folding, and anything
else is the `BadValue` error carrying the group name and the text. -/
theorem deserialize_bool_eq (v : Value) :
    Value.deserialize v Shape.bool =
      (if v.value.toList.map asciiLower = "true".toList then
        Except.ok (Native.bool true)
      else if v.value.toList.map asciiLower = "false".toList then
        Except.ok (Native.bool false)
      else Except.error (Error.BadValue v.name v.value)) := by
  have htrue : "true".toList.map asciiLower = "true".toList := by decide
  have hfalse : "false".toList.map asciiLower = "false".toList := by decide
  have e1 : (eqIgnoreAsciiCase v.value "true" = true) ↔
      v.value.toList.map asciiLower = "true".toList := by
    unfold eqIgnoreAsciiCase
    rw [htrue, beq_iff_eq]
  have e2 : (eqIgnoreAsciiCase v.value "false" = true) ↔
      v.value.toList.map asciiLower = "false".toList := by
    unfold eqIgnoreAsciiCase
    rw [hfalse, beq_iff_eq]
  simp only [Value.deserialize, Value.get_parse_error]
  by_cases h1 : v.value.toList.map asciiLower = "true".toList
  · rw [if_pos (e1.mpr h1), if_pos h1]
  · rw [if_neg (fun hh => h1 (e1.mp hh)), if_neg h1]
    by_cases h2 : v.value.toList.map asciiLower = "false".toList
    · rw [if_pos (e2.mpr h2), if_pos h2]
    · rw [if_neg (fun hh => h2 (e2.mp hh)), if_neg h2]

/-- Claim C4: a boolean field converts to `true` exactly when the captured
text equals "true" under ASCII case-insensitive comparison, to `false` exactly
when it equals "false" likewise, and any other text fails with the typed
`BadValue` error carrying the group name and the text. -/
theorem bool_field_conversion (v : Value) :
    (Value.deserialize v Shape.bool = Except.ok (Native.bool true) ↔
      v.value.toList.map asciiLower = "true".toList)
    ∧ (Value.deserialize v Shape.bool = Except.ok (Native.bool false) ↔
      v.value.toList.map asciiLower = "false".toList)
    ∧ (v.value.toList.map asciiLower ≠ "true".toList →
        v.value.toList.map asciiLower ≠ "false".toList →
        Value.deserialize v Shape.bool = Except.error (Error.BadValue v.name v.value)) := by
  rw [deserialize_bool_eq]
  by_cases h1 : v.value.toList.map asciiLower = "true".toList
  · rw [if_pos h1]
    refine ⟨⟨fun _ => h1, fun _ => rfl⟩, ⟨fun h => by simp at h, fun h2 => ?_⟩,
      fun hn1 _ => absurd h1 hn1⟩
    rw [h1] at h2
    exact absurd h2 (by decide)
  · by_cases h2 : v.value.toList.map asciiLower = "false".toList
    · rw [if_neg h1, if_pos h2]
      refine ⟨⟨fun h => by simp at h, fun hh => ?_⟩, ⟨fun _ => h2, fun _ => rfl⟩,
        fun _ hn2 => absurd h2 hn2⟩
      rw [h2] at hh
      exact absurd hh (by decide)
    · rw [if_neg h1, if_neg h2]
      exact ⟨⟨fun h => by simp at h, fun hh => absurd hh h1⟩,
        ⟨fun h => by simp at h, fun hh => absurd hh h2⟩, fun _ _ => rfl⟩

theorem bool_field_conversion_witness :
    Value.deserialize (Value.mk "v" "TrUe") Shape.bool = Except.ok (Native.bool true)
    ∧ Value.deserialize (Value.mk "v" "FALSE") Shape.bool = Except.ok (Native.bool false)
    ∧ Value.deserialize (Value.mk "v" "yes") Shape.bool =
        Except.error (Error.BadValue "v" "yes")
    ∧ Value.deserialize (Value.mk "v" "") Shape.bool =
        Except.error (Error.BadValue "v" "") :=
  ⟨(bool_field_conversion (Value.mk "v" "TrUe")).1.mpr (by decide),
   (bool_field_conversion (Value.mk "v" "FALSE")).2.1.mpr (by decide),
   (bool_field_conversion (Value.mk "v" "yes")).2.2 (by decide) (by decide),
   (bool_field_conversion (Value.mk "v" "")).2.2 (by decide) (by decide)⟩

/-- Membership in the capture mapping: an entry (n, v) is produced exactly
when the pattern declares a named group `n` (an entry `some n` in
`capture_names`) and that group participated in the match (`caps.name n` is
`some`), and the entry's `Value` then carries that group's name and text. -/
theorem mem_buildItems_iff (names : List (Option String)) (caps : String → Option String)
    (n : String) (v : Value) :
    (n, v) ∈ buildItems names caps ↔
      Option.some n ∈ names ∧ caps n = Option.some v.value ∧ v.name = n := by
  unfold buildItems
  rw [List.mem_filterMap]
  constructor
  · rintro ⟨o, ho, hf⟩
    rcases o with _ | m
    · simp at hf
    · rcases ht : caps m with _ | t
      · simp [ht] at hf
      · simp [ht] at hf
        obtain ⟨rfl, rfl⟩ := hf
        exact ⟨ho, ht, rfl⟩
  · rintro ⟨hmem, hcaps, hname⟩
    refine ⟨Option.some n, hmem, ?_⟩
    cases v with
    | mk vn vv =>
      simp only at hname
      subst hname
      simp [hcaps]

/-- Claim C6: the capture mapping contains an entry exactly for the named
groups that participated in the match; a named group that did not participate
is absent altogether (not present with an empty value), and unnamed groups
(the `none` entries of `capture_names`) never contribute an entry. -/
theorem capture_mapping_exact (names : List (Option String))
    (caps : String → Option String) (n : String) (v : Value) :
    ((n, v) ∈ buildItems names caps ↔
      Option.some n ∈ names ∧ caps n = Option.some v.value ∧ v.name = n)
    ∧ (caps n = Option.none → ∀ w : Value, (n, w) ∉ buildItems names caps) := by
  refine ⟨mem_buildItems_iff names caps n v, ?_⟩
  intro h w hw
  have hmem := (mem_buildItems_iff names caps n w).mp hw
  rw [h] at hmem
  exact Option.noConfusion hmem.2.1

/-- A concrete capture lookup: group "a" participated with text "1", every
other group did not participate. -/
def sampleCaps : String → Option String :=
  fun s => if s = "a" then Option.some "1" else Option.none

theorem capture_mapping_exact_witness :
    ("a", Value.mk "a" "1") ∈
      buildItems [Option.some "a", Option.none, Option.some "b"] sampleCaps
    ∧ ∀ w : Value,
        ("b", w) ∉ buildItems [Option.some "a", Option.none, Option.some "b"] sampleCaps := by
  constructor
  · exact (capture_mapping_exact [Option.some "a", Option.none, Option.some "b"]
      sampleCaps "a" (Value.mk "a" "1")).1.mpr ⟨by decide, by decide, rfl⟩
  · exact (capture_mapping_exact [Option.some "a", Option.none, Option.some "b"]
      sampleCaps "b" (Value.mk "b" "")).2 (by decide)

/-- A successful variant lookup returns an element of the variant list whose
name is the searched text. -/
theorem findVariant_some (variants : List (String × Bool)) (s : String)
    (p : String × Bool) (h : findVariant variants s = Option.some p) :
    p.1 = s ∧ p ∈ variants := by
  unfold findVariant at h
  have h1 := List.find?_some h
  have h2 := List.mem_of_find?_eq_some h
  exact ⟨by simpa using h1, h2⟩

/-- With distinct variant names, membership determines the variant lookup. -/
theorem findVariant_of_mem (variants : List (String × Bool)) (s : String) (b : Bool)
    (hnd : (variants.map Prod.fst).Nodup) (h : (s, b) ∈ variants) :
    findVariant variants s = Option.some (s, b) := by
  induction variants with
  | nil => cases h
  | cons hd tl ih =>
    rw [List.map_cons, List.nodup_cons] at hnd
    rcases List.mem_cons.mp h with heq | htl
    · subst heq
      unfold findVariant
      exact List.find?_cons_of_pos _ (by simp)
    · have hne : (hd.1 == s) = false := by
        rw [beq_eq_false_iff_ne]
        intro he
        exact hnd.1 (he ▸ List.mem_map.mpr ⟨(s, b), htl, rfl⟩)
      unfold findVariant
      rw [List.find?_cons_of_neg _ (by simp [hne])]
      exact ih hnd.2 htl

/-- Claim C5: with distinct (renamed) variant names, an enumeration field
selects a variant exactly when the captured text is a case-sensitive,
whole-string match of a unit variant's name; text matching no variant name
and text naming a data-carrying variant both fail with the opaque `Custom`
error kind. -/
theorem enum_unit_variant_selection (variants : List (String × Bool))
    (hnd : (variants.map Prod.fst).Nodup) (v : Value) :
    (∀ nm, Value.deserialize v (Shape.enum variants) = Except.ok (Native.variant nm) ↔
      nm = v.value ∧ (v.value, true) ∈ variants)
    ∧ ((¬ ∃ b, (v.value, b) ∈ variants) →
        ∃ m, Value.deserialize v (Shape.enum variants) = Except.error (Error.Custom m))
    ∧ ((v.value, false) ∈ variants →
        ∃ m, Value.deserialize v (Shape.enum variants) = Except.error (Error.Custom m)) := by
  refine ⟨?_, ?_, ?_⟩
  · intro nm
    constructor
    · intro h
      rcases hf : findVariant variants v.value with _ | ⟨name, b⟩
      · simp [Value.deserialize, hf] at h
      · have hs := findVariant_some variants v.value (name, b) hf
        have hn : name = v.value := hs.1
        cases b
        · simp [Value.deserialize, hf] at h
        · simp [Value.deserialize, hf] at h
          constructor
          · exact h ▸ hn
          · exact hn ▸ hs.2
    · rintro ⟨rfl, hmem⟩
      have hf := findVariant_of_mem variants v.value true hnd hmem
      simp [Value.deserialize, hf]
  · intro h
    rcases hf : findVariant variants v.value with _ | ⟨name, b⟩
    · exact ⟨"unknown variant " ++ v.value, by simp [Value.deserialize, hf]⟩
    · exfalso
      have hs := findVariant_some variants v.value (name, b) hf
      have hn : name = v.value := hs.1
      exact h ⟨b, hn ▸ hs.2⟩
  · intro hmem
    have hf := findVariant_of_mem variants v.value false hnd hmem
    exact ⟨"invalid type: newtype variant, expected unit variant " ++ v.value,
      by simp [Value.deserialize, hf]⟩

/-- The variant table of the spec's example enum: unit variants "Foo" and
(renamed) "bar", and a data-carrying variant "Baz". -/
def sampleVariants : List (String × Bool) :=
  [("Foo", true), ("bar", true), ("Baz", false)]

theorem enum_unit_variant_selection_witness :
    Value.deserialize (Value.mk "v" "Foo") (Shape.enum sampleVariants) =
      Except.ok (Native.variant "Foo")
    ∧ (∃ m, Value.deserialize (Value.mk "v" "foo") (Shape.enum sampleVariants) =
        Except.error (Error.Custom m))
    ∧ (∃ m, Value.deserialize (Value.mk "v" "Baz") (Shape.enum sampleVariants) =
        Except.error (Error.Custom m)) := by
  refine ⟨?_, ?_, ?_⟩
  · exact ((enum_unit_variant_selection sampleVariants (by decide)
      (Value.mk "v" "Foo")).1 "Foo").mpr ⟨rfl, by decide⟩
  · exact (enum_unit_variant_selection sampleVariants (by decide)
      (Value.mk "v" "foo")).2.1 (by decide)
  · exact (enum_unit_variant_selection sampleVariants (by decide)
      (Value.mk "v" "Baz")).2.2 (by decide)

/-- An `Except.map` yields `ok` exactly when the mapped computation did. -/
theorem except_map_eq_ok {α β ε : Type} (f : α → β) (x : Except ε α) (y : β) :
    x.map f = Except.ok y ↔ ∃ z, x = Except.ok z ∧ y = f z := by
  cases x <;> simp [Except.map]
  exact eq_comm

/-- If a declared field has no slot and is not optional, the missing-field
pass never succeeds. -/
theorem fillMissing_absent_required (fields : List Field) (acc : List (String × Native))
    (f : Field) (hf : f ∈ fields)
    (habs : acc.find? (fun p => p.1 = f.name) = Option.none)
    (hreq : f.shape.isOption = false) :
    ∀ r, fillMissing fields acc ≠ Except.ok r := by
  induction fields with
  | nil => cases hf
  | cons g gs ih =>
    intro r hr
    unfold fillMissing at hr
    rcases List.mem_cons.mp hf with heq | htl
    · subst heq
      rw [habs, hreq] at hr
      simp at hr
    · rcases hfind : acc.find? (fun p => p.1 = g.name) with _ | p
      · rw [hfind] at hr
        by_cases hgopt : g.shape.isOption = true
        · rw [hgopt] at hr
          simp only [if_true] at hr
          obtain ⟨r', hr', _⟩ := (except_map_eq_ok _ _ _).mp hr
          exact ih htl r' hr'
        · rw [eq_false_of_ne_true hgopt] at hr
          simp at hr
      · rw [hfind] at hr
        obtain ⟨r', hr', _⟩ := (except_map_eq_ok _ _ _).mp hr
        exact ih htl r' hr'

/-- If a declared field has no slot and is optional, a successful
missing-field pass gives it the value "no value". -/
theorem fillMissing_absent_optional (fields : List Field) (acc : List (String × Native))
    (f : Field) (hf : f ∈ fields)
    (habs : acc.find? (fun p => p.1 = f.name) = Option.none) :
    ∀ r, fillMissing fields acc = Except.ok r → (f.name, Native.none) ∈ r := by
  induction fields with
  | nil => cases hf
  | cons g gs ih =>
    intro r hr
    unfold fillMissing at hr
    rcases hfind : acc.find? (fun p => p.1 = g.name) with _ | p
    · rw [hfind] at hr
      by_cases hgopt : g.shape.isOption = true
      · rw [hgopt] at hr
        simp only [if_true] at hr
        obtain ⟨r', hr', rfl⟩ := (except_map_eq_ok _ _ _).mp hr
        rcases List.mem_cons.mp hf with heq | htl
        · subst heq
          exact List.mem_cons_self _ _
        · exact List.mem_cons_of_mem _ (ih htl r' hr')
      · rw [eq_false_of_ne_true hgopt] at hr
        simp at hr
    · rw [hfind] at hr
      obtain ⟨r', hr', rfl⟩ := (except_map_eq_ok _ _ _).mp hr
      rcases List.mem_cons.mp hf with heq | htl
      · subst heq
        rw [habs] at hfind
        exact Option.noConfusion hfind
      · exact List.mem_cons_of_mem _ (ih htl r' hr')

/-- A successful entry pass ends in a missing-field pass whose slots all stem
from the initial slots or from the consumed entries' keys. -/
theorem convertItems_ok_acc (fields : List Field) (rest : List (String × Value))
    (acc : List (String × Native)) (r : List (String × Native))
    (h : convertItems fields rest acc = Except.ok r) :
    ∃ acc', fillMissing fields acc' = Except.ok r
      ∧ ∀ p ∈ acc', p.1 ∈ acc.map Prod.fst ∨ p.1 ∈ rest.map Prod.fst := by
  induction rest generalizing acc with
  | nil =>
    exact ⟨acc, h, fun p hp => Or.inl (List.mem_map.mpr ⟨p, hp, rfl⟩)⟩
  | cons kv rest' ih =>
    obtain ⟨k, w⟩ := kv
    unfold convertItems at h
    rcases hfind : fields.find? (fun f => f.name = k) with _ | f
    · rw [hfind] at h
      obtain ⟨acc', ha, hsub⟩ := ih acc h
      refine ⟨acc', ha, fun p hp => ?_⟩
      rcases hsub p hp with h0 | h1
      · exact Or.inl h0
      · exact Or.inr (by rw [List.map_cons]; exact List.mem_cons_of_mem _ h1)
    · rw [hfind] at h
      by_cases hdup : acc.any (fun p => p.1 = k)
      · rw [hdup] at h
        simp at h
      · rw [eq_false_of_ne_true hdup] at h
        simp only [Bool.false_eq_true, if_false] at h
        rcases hd : w.deserialize f.shape with e | n
        · rw [hd] at h
          simp at h
        · rw [hd] at h
          obtain ⟨acc', ha, hsub⟩ := ih (acc ++ [(k, n)]) h
          refine ⟨acc', ha, fun p hp => ?_⟩
          rcases hsub p hp with hin | hin
          · rw [List.map_append] at hin
            rcases List.mem_append.mp hin with h1 | h2
            · exact Or.inl h1
            · simp at h2
              exact Or.inr (by rw [List.map_cons, h2]; exact List.mem_cons_self _ _)
          · exact Or.inr (by rw [List.map_cons]; exact List.mem_cons_of_mem _ hin)

/-- Claim C7: a schema field whose name is absent from the capture mapping
makes the whole conversion fail when the field is not optional (no default is
produced), and resolves to "no value" when the field is optional, the overall
conversion still being able to succeed. -/
theorem missing_schema_field (fields : List Field) (items : List (String × Value))
    (f : Field) (hf : f ∈ fields) (habs : ∀ p ∈ items, p.1 ≠ f.name) :
    (f.shape.isOption = false → ∀ r, deserializeStruct fields items ≠ Except.ok r)
    ∧ (f.shape.isOption = true → ∀ r, deserializeStruct fields items = Except.ok r →
        (f.name, Native.none) ∈ r) := by
  have key : ∀ r, deserializeStruct fields items = Except.ok r →
      ∃ acc', fillMissing fields acc' = Except.ok r
        ∧ acc'.find? (fun p => p.1 = f.name) = Option.none := by
    intro r hr
    obtain ⟨acc', ha, hsub⟩ := convertItems_ok_acc fields items [] r hr
    refine ⟨acc', ha, ?_⟩
    rw [List.find?_eq_none]
    intro p hp hpn
    have hpf : p.1 = f.name := of_decide_eq_true hpn
    rcases hsub p hp with h0 | h1
    · simp at h0
    · obtain ⟨q, hq, hqe⟩ := List.mem_map.mp h1
      exact habs q hq (hqe.trans hpf)
  constructor
  · intro hreq r hr
    obtain ⟨acc', ha, hfind⟩ := key r hr
    exact fillMissing_absent_required fields acc' f hf hfind hreq r ha
  · intro _ r hr
    obtain ⟨acc', ha, hfind⟩ := key r hr
    exact fillMissing_absent_optional fields acc' f hf hfind r ha

theorem missing_schema_field_witness :
    (∀ r, deserializeStruct [Field.mk "b" Shape.u8] [] ≠ Except.ok r)
    ∧ deserializeStruct [Field.mk "a" (Shape.option Shape.u8)] [] =
        Except.ok [("a", Native.none)]
    ∧ (("a" : String), Native.none) ∈ [(("a" : String), Native.none)] := by
  refine ⟨?_, by rfl, ?_⟩
  · exact (missing_schema_field [Field.mk "b" Shape.u8] [] (Field.mk "b" Shape.u8)
      (by simp) (by simp)).1 rfl
  · exact (missing_schema_field [Field.mk "a" (Shape.option Shape.u8)] []
      (Field.mk "a" (Shape.option Shape.u8)) (by simp) (by simp)).2 rfl
      [("a", Native.none)] (by rfl)

/-! ## Decimal integer parsing: specification and characterization -/

/-- The integer denoted by a list of decimal digits, most significant first. -/
def decVal (l : List Char) : Int :=
  l.foldl (fun a c => a * 10 + digitVal c) 0

/-- `s` is a decimal representation of `n` in the grammar Rust's integer
`FromStr` accepts: a nonempty run of decimal digits, optionally preceded by
'+' for any integer type, or by '-' only for a signed type. -/
def decRepr (s : String) (signed : Bool) (n : Int) : Prop :=
  ∃ ds : List Char, ds ≠ [] ∧ (∀ c ∈ ds, isDecDigit c = true) ∧
    (((s.toList = ds ∨ s.toList = '+' :: ds) ∧ n = decVal ds)
     ∨ (signed = true ∧ s.toList = '-' :: ds ∧ n = -decVal ds))

theorem digitVal_bounds (c : Char) (h : isDecDigit c = true) :
    0 ≤ digitVal c ∧ digitVal c ≤ 9 := by
  unfold isDecDigit at h
  have hb := of_decide_eq_true h
  unfold digitVal
  omega

theorem goPos_nil (maxV : Int) (a : Int) : goPos maxV [] a = Option.some a := rfl

theorem goPos_cons (maxV : Int) (c : Char) (rest : List Char) (a : Int) :
    goPos maxV (c :: rest) a =
      (if isDecDigit c then
        (if a * 10 + digitVal c ≤ maxV then goPos maxV rest (a * 10 + digitVal c)
         else Option.none)
       else Option.none) := rfl

theorem goNeg_nil (minV : Int) (a : Int) : goNeg minV [] a = Option.some a := rfl

theorem goNeg_cons (minV : Int) (c : Char) (rest : List Char) (a : Int) :
    goNeg minV (c :: rest) a =
      (if isDecDigit c then
        (if minV ≤ a * 10 - digitVal c then goNeg minV rest (a * 10 - digitVal c)
         else Option.none)
       else Option.none) := rfl

/-- Appending digits to a non-negative accumulator never decreases it. -/
theorem foldl_step_ge (l : List Char) : ∀ a : Int, (∀ c ∈ l, isDecDigit c = true) →
    0 ≤ a → a ≤ l.foldl (fun a c => a * 10 + digitVal c) a := by
  induction l with
  | nil => intro a _ _; simp
  | cons c rest ih =>
    intro a hd ha
    rw [List.foldl_cons]
    have hc := digitVal_bounds c (hd c (List.mem_cons_self c rest))
    have h2 := ih (a * 10 + digitVal c) (fun x hx => hd x (List.mem_cons_of_mem c hx))
      (by omega)
    omega

theorem decVal_nonneg (l : List Char) (hd : ∀ c ∈ l, isDecDigit c = true) :
    0 ≤ decVal l :=
  foldl_step_ge l 0 hd le_rfl

/-- Appending digits to a non-positive accumulator (negative loop) never
increases it. -/
theorem foldl_stepNeg_le (l : List Char) : ∀ a : Int, (∀ c ∈ l, isDecDigit c = true) →
    a ≤ 0 → l.foldl (fun a c => a * 10 - digitVal c) a ≤ a := by
  induction l with
  | nil => intro a _ _; simp
  | cons c rest ih =>
    intro a hd ha
    rw [List.foldl_cons]
    have hc := digitVal_bounds c (hd c (List.mem_cons_self c rest))
    have h2 := ih (a * 10 - digitVal c) (fun x hx => hd x (List.mem_cons_of_mem c hx))
      (by omega)
    omega

/-- The negative accumulation loop computes the negation of the positive one
started from the negated accumulator. -/
theorem foldl_stepNeg_eq (l : List Char) : ∀ a : Int,
    l.foldl (fun a c => a * 10 - digitVal c) a =
      -(l.foldl (fun a c => a * 10 + digitVal c) (-a)) := by
  induction l with
  | nil => intro a; simp
  | cons c rest ih =>
    intro a
    rw [List.foldl_cons, List.foldl_cons, ih (a * 10 - digitVal c)]
    have he : -(a * 10 - digitVal c) = (-a) * 10 + digitVal c := by ring
    rw [he]

theorem goPos_sound (maxV : Int) (l : List Char) : ∀ a n : Int, a ≤ maxV →
    goPos maxV l a = Option.some n →
    (∀ c ∈ l, isDecDigit c = true)
      ∧ n = l.foldl (fun a c => a * 10 + digitVal c) a ∧ n ≤ maxV := by
  induction l with
  | nil =>
    intro a n ha h
    rw [goPos_nil] at h
    obtain rfl := Option.some.inj h
    exact ⟨fun c hc => absurd hc (List.not_mem_nil c), by simp, ha⟩
  | cons c rest ih =>
    intro a n ha h
    rw [goPos_cons] at h
    by_cases hc : isDecDigit c = true
    · rw [if_pos hc] at h
      by_cases hb : a * 10 + digitVal c ≤ maxV
      · rw [if_pos hb] at h
        obtain ⟨hd, hn, hm⟩ := ih (a * 10 + digitVal c) n hb h
        refine ⟨?_, by rw [List.foldl_cons]; exact hn, hm⟩
        intro x hx
        rcases List.mem_cons.mp hx with rfl | hx'
        · exact hc
        · exact hd x hx'
      · rw [if_neg hb] at h
        exact Option.noConfusion h
    · rw [if_neg hc] at h
      exact Option.noConfusion h

theorem goPos_complete (maxV : Int) (l : List Char) : ∀ a : Int,
    (∀ c ∈ l, isDecDigit c = true) → 0 ≤ a →
    l.foldl (fun a c => a * 10 + digitVal c) a ≤ maxV →
    goPos maxV l a = Option.some (l.foldl (fun a c => a * 10 + digitVal c) a) := by
  induction l with
  | nil => intro a _ _ _; rw [goPos_nil, List.foldl_nil]
  | cons c rest ih =>
    intro a hd ha hle
    have hc := hd c (List.mem_cons_self c rest)
    have hcb := digitVal_bounds c hc
    have ha' : 0 ≤ a * 10 + digitVal c := by omega
    rw [List.foldl_cons] at hle ⊢
    have hge := foldl_step_ge rest (a * 10 + digitVal c)
      (fun x hx => hd x (List.mem_cons_of_mem c hx)) ha'
    rw [goPos_cons, if_pos hc, if_pos (hge.trans hle)]
    exact ih (a * 10 + digitVal c) (fun x hx => hd x (List.mem_cons_of_mem c hx)) ha' hle

theorem goNeg_sound (minV : Int) (l : List Char) : ∀ a n : Int, minV ≤ a →
    goNeg minV l a = Option.some n →
    (∀ c ∈ l, isDecDigit c = true)
      ∧ n = l.foldl (fun a c => a * 10 - digitVal c) a ∧ minV ≤ n := by
  induction l with
  | nil =>
    intro a n ha h
    rw [goNeg_nil] at h
    obtain rfl := Option.some.inj h
    exact ⟨fun c hc => absurd hc (List.not_mem_nil c), by simp, ha⟩
  | cons c rest ih =>
    intro a n ha h
    rw [goNeg_cons] at h
    by_cases hc : isDecDigit c = true
    · rw [if_pos hc] at h
      by_cases hb : minV ≤ a * 10 - digitVal c
      · rw [if_pos hb] at h
        obtain ⟨hd, hn, hm⟩ := ih (a * 10 - digitVal c) n hb h
        refine ⟨?_, by rw [List.foldl_cons]; exact hn, hm⟩
        intro x hx
        rcases List.mem_cons.mp hx with rfl | hx'
        · exact hc
        · exact hd x hx'
      · rw [if_neg hb] at h
        exact Option.noConfusion h
    · rw [if_neg hc] at h
      exact Option.noConfusion h

theorem goNeg_complete (minV : Int) (l : List Char) : ∀ a : Int,
    (∀ c ∈ l, isDecDigit c = true) → a ≤ 0 →
    minV ≤ l.foldl (fun a c => a * 10 - digitVal c) a →
    goNeg minV l a = Option.some (l.foldl (fun a c => a * 10 - digitVal c) a) := by
  induction l with
  | nil => intro a _ _ _; rw [goNeg_nil, List.foldl_nil]
  | cons c rest ih =>
    intro a hd ha hle
    have hc := hd c (List.mem_cons_self c rest)
    have hcb := digitVal_bounds c hc
    have ha' : a * 10 - digitVal c ≤ 0 := by omega
    rw [List.foldl_cons] at hle ⊢
    have hge := foldl_stepNeg_le rest (a * 10 - digitVal c)
      (fun x hx => hd x (List.mem_cons_of_mem c hx)) ha'
    rw [goNeg_cons, if_pos hc, if_pos (hle.trans hge)]
    exact ih (a * 10 - digitVal c) (fun x hx => hd x (List.mem_cons_of_mem c hx)) ha' hle

theorem goPos_zero_iff (maxV : Int) (hmax : 0 ≤ maxV) (l : List Char) (n : Int) :
    goPos maxV l 0 = Option.some n ↔
      (∀ c ∈ l, isDecDigit c = true) ∧ n = decVal l ∧ n ≤ maxV := by
  constructor
  · intro h
    exact goPos_sound maxV l 0 n hmax h
  · rintro ⟨hd, rfl, hm⟩
    exact goPos_complete maxV l 0 hd le_rfl hm

theorem goNeg_zero_iff (minV : Int) (hmin : minV ≤ 0) (l : List Char) (n : Int) :
    goNeg minV l 0 = Option.some n ↔
      (∀ c ∈ l, isDecDigit c = true) ∧ n = -decVal l ∧ minV ≤ n := by
  have hneg : l.foldl (fun a c => a * 10 - digitVal c) (0 : Int) = -decVal l := by
    rw [foldl_stepNeg_eq l 0]
    simp [decVal]
  constructor
  · intro h
    obtain ⟨hd, hn, hm⟩ := goNeg_sound minV l 0 n hmin h
    rw [hneg] at hn
    exact ⟨hd, hn, hm⟩
  · rintro ⟨hd, rfl, hm⟩
    have hc := goNeg_complete minV l 0 hd le_rfl (by rw [hneg]; exact hm)
    rw [hneg] at hc
    exact hc

theorem rustParseInt_nil (signed : Bool) (minV maxV : Int) (s : String)
    (hl : s.toList = []) : rustParseInt signed minV maxV s = Option.none := by
  unfold rustParseInt
  rw [hl]

theorem rustParseInt_cons (signed : Bool) (minV maxV : Int) (s : String) (c : Char)
    (rest : List Char) (hl : s.toList = c :: rest) :
    rustParseInt signed minV maxV s =
      (if c = '+' then (if rest.isEmpty then Option.none else goPos maxV rest 0)
       else if c = '-' then
         (if signed then (if rest.isEmpty then Option.none else goNeg minV rest 0)
          else goPos maxV (c :: rest) 0)
       else goPos maxV (c :: rest) 0) := by
  unfold rustParseInt
  rw [hl]

/-- Full characterization of Rust's bounded decimal integer parsing: it
succeeds with `n` exactly when the string is a decimal representation of `n`
in the accepted sign grammar and `n` lies within the type's bounds. -/
theorem rustParseInt_some_iff (signed : Bool) (minV maxV : Int)
    (hmin : minV ≤ 0) (hmax : 0 ≤ maxV) (s : String) (n : Int) :
    rustParseInt signed minV maxV s = Option.some n ↔
      decRepr s signed n ∧ minV ≤ n ∧ n ≤ maxV := by
  rcases hl : s.toList with _ | ⟨c, rest⟩
  · rw [rustParseInt_nil signed minV maxV s hl]
    constructor
    · intro h
      exact Option.noConfusion h
    · rintro ⟨⟨ds, hne, _, hcase⟩, _, _⟩
      rcases hcase with ⟨hds | hds, _⟩ | ⟨_, hds, _⟩
      · exact (hne (hl.symm.trans hds).symm).elim
      · exact List.noConfusion (hl.symm.trans hds)
      · exact List.noConfusion (hl.symm.trans hds)
  · rw [rustParseInt_cons signed minV maxV s c rest hl]
    by_cases hplus : c = '+'
    · subst hplus
      rw [if_pos rfl]
      by_cases hre : rest = []
      · rw [if_pos (by simp [hre])]
        constructor
        · intro h
          exact Option.noConfusion h
        · rintro ⟨⟨ds, hne, hdig, hcase⟩, _, _⟩
          subst hre
          rcases hcase with ⟨hds | hds, _⟩ | ⟨_, hds, _⟩
          · have hdseq : ds = ['+'] := (hl.symm.trans hds).symm
            have := hdig '+' (by rw [hdseq]; exact List.mem_cons_self _ _)
            exact absurd this (by decide)
          · have h2 : ('+' : Char) :: ([] : List Char) = '+' :: ds := hl.symm.trans hds
            injection h2 with _ h3
            exact (hne h3.symm).elim
          · have h2 : ('+' : Char) :: ([] : List Char) = '-' :: ds := hl.symm.trans hds
            injection h2 with h3 _
            exact absurd h3 (by decide)
      · rw [if_neg (by simp [hre])]
        rw [goPos_zero_iff maxV hmax rest n]
        constructor
        · rintro ⟨hdig, rfl, hle⟩
          have h0 : 0 ≤ decVal rest := decVal_nonneg rest hdig
          exact ⟨⟨rest, hre, hdig, Or.inl ⟨Or.inr hl, rfl⟩⟩, hmin.trans h0, hle⟩
        · rintro ⟨⟨ds, hne, hdig, hcase⟩, _, hle⟩
          rcases hcase with ⟨hds | hds, hn⟩ | ⟨_, hds, _⟩
          · have hdseq : ds = '+' :: rest := (hl.symm.trans hds).symm
            have := hdig '+' (by rw [hdseq]; exact List.mem_cons_self _ _)
            exact absurd this (by decide)
          · have h2 : ('+' : Char) :: rest = '+' :: ds := hl.symm.trans hds
            injection h2 with _ h3
            subst h3
            exact ⟨hdig, hn, hle⟩
          · have h2 : ('+' : Char) :: rest = '-' :: ds := hl.symm.trans hds
            injection h2 with h3 _
            exact absurd h3 (by decide)
    · rw [if_neg hplus]
      by_cases hminus : c = '-'
      · subst hminus
        rw [if_pos rfl]
        cases signed with
        | true =>
          rw [if_pos rfl]
          by_cases hre : rest = []
          · rw [if_pos (by simp [hre])]
            constructor
            · intro h
              exact Option.noConfusion h
            · rintro ⟨⟨ds, hne, hdig, hcase⟩, _, _⟩
              subst hre
              rcases hcase with ⟨hds | hds, _⟩ | ⟨_, hds, _⟩
              · have hdseq : ds = ['-'] := (hl.symm.trans hds).symm
                have := hdig '-' (by rw [hdseq]; exact List.mem_cons_self _ _)
                exact absurd this (by decide)
              · have h2 : ('-' : Char) :: ([] : List Char) = '+' :: ds := hl.symm.trans hds
                injection h2 with h3 _
                exact absurd h3 (by decide)
              · have h2 : ('-' : Char) :: ([] : List Char) = '-' :: ds := hl.symm.trans hds
                injection h2 with _ h3
                exact (hne h3.symm).elim
          · rw [if_neg (by simp [hre])]
            rw [goNeg_zero_iff minV hmin rest n]
            constructor
            · rintro ⟨hdig, rfl, hge⟩
              have h0 : 0 ≤ decVal rest := decVal_nonneg rest hdig
              exact ⟨⟨rest, hre, hdig, Or.inr ⟨rfl, hl, rfl⟩⟩, hge, le_trans (by omega) hmax⟩
            · rintro ⟨⟨ds, hne, hdig, hcase⟩, hge, _⟩
              rcases hcase with ⟨hds | hds, hn⟩ | ⟨_, hds, hn⟩
              · have hdseq : ds = '-' :: rest := (hl.symm.trans hds).symm
                have := hdig '-' (by rw [hdseq]; exact List.mem_cons_self _ _)
                exact absurd this (by decide)
              · have h2 : ('-' : Char) :: rest = '+' :: ds := hl.symm.trans hds
                injection h2 with h3 _
                exact absurd h3 (by decide)
              · have h2 : ('-' : Char) :: rest = '-' :: ds := hl.symm.trans hds
                injection h2 with _ h3
                subst h3
                exact ⟨hdig, hn, hge⟩
        | false =>
          rw [if_neg (by simp)]
          have hgp : goPos maxV ('-' :: rest) 0 = Option.none := by
            rw [goPos_cons, if_neg (by decide)]
          rw [hgp]
          constructor
          · intro h
            exact Option.noConfusion h
          · rintro ⟨⟨ds, hne, hdig, hcase⟩, _, _⟩
            rcases hcase with ⟨hds | hds, _⟩ | ⟨hsig, _, _⟩
            · have hdseq : ds = '-' :: rest := (hl.symm.trans hds).symm
              have := hdig '-' (by rw [hdseq]; exact List.mem_cons_self _ _)
              exact absurd this (by decide)
            · have h2 : ('-' : Char) :: rest = '+' :: ds := hl.symm.trans hds
              injection h2 with h3 _
              exact absurd h3 (by decide)
            · exact Bool.noConfusion hsig
      · rw [if_neg hminus]
        rw [goPos_zero_iff maxV hmax (c :: rest) n]
        constructor
        · rintro ⟨hdig, rfl, hle⟩
          have h0 : 0 ≤ decVal (c :: rest) := decVal_nonneg (c :: rest) hdig
          exact ⟨⟨c :: rest, by simp, hdig, Or.inl ⟨Or.inl hl, rfl⟩⟩, hmin.trans h0, hle⟩
        · rintro ⟨⟨ds, hne, hdig, hcase⟩, _, hle⟩
          rcases hcase with ⟨hds | hds, hn⟩ | ⟨_, hds, _⟩
          · have hdseq : c :: rest = ds := hl.symm.trans hds
            subst hdseq
            exact ⟨hdig, hn, hle⟩
          · have h2 : c :: rest = '+' :: ds := hl.symm.trans hds
            injection h2 with h3 _
            exact absurd h3 hplus
          · have h2 : c :: rest = '-' :: ds := hl.symm.trans hds
            injection h2 with h3 _
            exact absurd h3 hminus

/-- The integer conversion characterization phrased on `Value.parseInt`
followed by the `Native.int` wrapping the integer visitors perform. -/
theorem parseInt_characterization (v : Value) (signed : Bool) (minV maxV : Int)
    (hmin : minV ≤ 0) (hmax : 0 ≤ maxV) (n : Int) :
    ((v.parseInt signed minV maxV).map Native.int = Except.ok (Native.int n) ↔
      decRepr v.value signed n ∧ minV ≤ n ∧ n ≤ maxV)
    ∧ ((¬ ∃ m, decRepr v.value signed m ∧ minV ≤ m ∧ m ≤ maxV) →
      (v.parseInt signed minV maxV).map Native.int =
        Except.error (Error.BadValue v.name v.value)) := by
  constructor
  · constructor
    · intro h
      rcases hp : rustParseInt signed minV maxV v.value with _ | m
      · simp [Value.parseInt, hp, Except.map] at h
      · simp [Value.parseInt, hp, Except.map] at h
        rw [← h]
        exact (rustParseInt_some_iff signed minV maxV hmin hmax v.value m).mp hp
    · intro hr
      have hp := (rustParseInt_some_iff signed minV maxV hmin hmax v.value n).mpr hr
      simp [Value.parseInt, hp, Except.map]
  · intro hne
    rcases hp : rustParseInt signed minV maxV v.value with _ | m
    · simp [Value.parseInt, hp, Except.map, Value.get_parse_error]
    · exact absurd ⟨m, (rustParseInt_some_iff signed minV maxV hmin hmax v.value m).mp hp⟩ hne

/-- Claim C3: an integer field of any width and signedness converts the
captured text to `n` exactly when the text is optional-'+'-or-'-'-prefixed
decimal digits denoting `n` within the width's range, the '-' form admitted
only for signed widths; any other text — non-numeric, out of range, or a
negative sign for an unsigned width — fails with the typed `BadValue` error
carrying the group name and the offending text. -/
theorem integer_field_conversion (v : Value) (sh : Shape) (signed : Bool)
    (minV maxV : Int) (h : intShapeInfo sh = Option.some (signed, minV, maxV))
    (n : Int) :
    (Value.deserialize v sh = Except.ok (Native.int n) ↔
      decRepr v.value signed n ∧ minV ≤ n ∧ n ≤ maxV)
    ∧ ((¬ ∃ m, decRepr v.value signed m ∧ minV ≤ m ∧ m ≤ maxV) →
      Value.deserialize v sh = Except.error (Error.BadValue v.name v.value)) := by
  cases sh with
  | u8 =>
    simp only [intShapeInfo, Option.some.injEq, Prod.mk.injEq] at h
    obtain ⟨rfl, rfl, rfl⟩ := h
    exact parseInt_characterization v false 0 255 (by norm_num) (by norm_num) n
  | u16 =>
    simp only [intShapeInfo, Option.some.injEq, Prod.mk.injEq] at h
    obtain ⟨rfl, rfl, rfl⟩ := h
    exact parseInt_characterization v false 0 65535 (by norm_num) (by norm_num) n
  | u32 =>
    simp only [intShapeInfo, Option.some.injEq, Prod.mk.injEq] at h
    obtain ⟨rfl, rfl, rfl⟩ := h
    exact parseInt_characterization v false 0 4294967295 (by norm_num) (by norm_num) n
  | u64 =>
    simp only [intShapeInfo, Option.some.injEq, Prod.mk.injEq] at h
    obtain ⟨rfl, rfl, rfl⟩ := h
    exact parseInt_characterization v false 0 18446744073709551615
      (by norm_num) (by norm_num) n
  | i8 =>
    simp only [intShapeInfo, Option.some.injEq, Prod.mk.injEq] at h
    obtain ⟨rfl, rfl, rfl⟩ := h
    exact parseInt_characterization v true (-128) 127 (by norm_num) (by norm_num) n
  | i16 =>
    simp only [intShapeInfo, Option.some.injEq, Prod.mk.injEq] at h
    obtain ⟨rfl, rfl, rfl⟩ := h
    exact parseInt_characterization v true (-32768) 32767 (by norm_num) (by norm_num) n
  | i32 =>
    simp only [intShapeInfo, Option.some.injEq, Prod.mk.injEq] at h
    obtain ⟨rfl, rfl, rfl⟩ := h
    exact parseInt_characterization v true (-2147483648) 2147483647
      (by norm_num) (by norm_num) n
  | i64 =>
    simp only [intShapeInfo, Option.some.injEq, Prod.mk.injEq] at h
    obtain ⟨rfl, rfl, rfl⟩ := h
    exact parseInt_characterization v true (-9223372036854775808) 9223372036854775807
      (by norm_num) (by norm_num) n
  | bool => exact absurd h (by simp [intShapeInfo])
  | str => exact absurd h (by simp [intShapeInfo])
  | option inner => exact absurd h (by simp [intShapeInfo])
  | newtype inner => exact absurd h (by simp [intShapeInfo])
  | enum variants => exact absurd h (by simp [intShapeInfo])
  | unsupported expected => exact absurd h (by simp [intShapeInfo])

theorem integer_field_conversion_witness :
    Value.deserialize (Value.mk "v" "+123") Shape.u8 = Except.ok (Native.int 123)
    ∧ Value.deserialize (Value.mk "v" "-123") Shape.i8 = Except.ok (Native.int (-123))
    ∧ Value.deserialize (Value.mk "v" "-1") Shape.u8 =
        Except.error (Error.BadValue "v" "-1")
    ∧ Value.deserialize (Value.mk "v" "300") Shape.u8 =
        Except.error (Error.BadValue "v" "300") := by
  refine ⟨?_, ?_, by rfl, by rfl⟩
  · exact (integer_field_conversion (Value.mk "v" "+123") Shape.u8 false 0 255 rfl
      123).1.mpr
      ⟨⟨['1', '2', '3'], by decide, by decide, Or.inl ⟨Or.inr (by decide), by decide⟩⟩,
        by decide, by decide⟩
  · exact (integer_field_conversion (Value.mk "v" "-123") Shape.i8 true (-128) 127 rfl
      (-123)).1.mpr
      ⟨⟨['1', '2', '3'], by decide, by decide, Or.inr ⟨rfl, by decide, by decide⟩⟩,
        by decide, by decide⟩

end DeRegex
